import Mathlib

set_option autoImplicit false

/-!
Shallow embedding of the HR_AGENT core: tabular loaders
(`Tools/elevix_rag/loaders.py`), the ingestion chunker
(`Tools/elevix_rag/ingest.py`), the schema-first retriever
(`Tools/elevix_rag/retriever.py`), the LLM failover router
(`Tools/elevix_chat_agent/src/llm_manager.py`), the intent classifier
(`Tools/elevix_chat_agent/src/intents.py`), the conversation-memory window
(`Tools/elevix_chat_agent/src/memory_manager.py`, `database.py`) and the
orchestrator turn handler (`Tools/elevix_chat_agent/src/agent.py`).
-/

namespace HRAgent

/-! ### String helpers mirroring the Python primitives used by the code -/

/-- Char-list version of `needle` being an initial run of `hay`. -/
def leadMatch : List Char → List Char → Bool
  | [], _ => true
  | _ :: _, [] => false
  | a :: as, b :: bs => a == b && leadMatch as bs

/-- Char-list version of Python's substring test `needle in hay`. -/
def subIn (n : List Char) : List Char → Bool
  | [] => n.isEmpty
  | c :: rest => leadMatch n (c :: rest) || subIn n rest

/-- Python `needle in hay` on strings. -/
def strIn (needle hay : String) : Bool := subIn needle.toList hay.toList

/-- Python `s.lower()` (ASCII case folding, which is all this code uses). -/
def strLower (s : String) : String := String.mk (s.toList.map Char.toLower)

/-- Python `sep.join(parts)`. -/
def pyJoin (sep : String) : List String → String
  | [] => ""
  | [s] => s
  | s :: rest => s ++ sep ++ pyJoin sep rest

/-- Python `s.strip()`: drop whitespace from both ends. -/
def pyStrip (s : String) : String :=
  String.mk (((s.toList.dropWhile Char.isWhitespace).reverse.dropWhile
    Char.isWhitespace).reverse)

/-- Python truthiness of `s.strip()`: the stripped string is nonempty iff
`s` contains some non-whitespace character. -/
def stripTruthy (s : String) : Bool := s.toList.any (fun c => !c.isWhitespace)

/-! ### Data model: langchain `Document` as this code base uses it -/

/-- The metadata dictionary of a langchain `Document`, with the keys this
repository writes made explicit; an absent key is `none`.  `mtype` is the
`"type"` key (set to `"schema"` on schema documents), `sectionLabel` is the
`"section"` key, `start_index` is the key added by the text splitter. -/
structure Metadata where
  mtype : Option String := none
  source_file : Option String := none
  file_type : Option String := none
  sectionLabel : Option String := none
  row_index : Option Nat := none
  sheet_name : Option String := none
  start_index : Option Nat := none
  source : Option String := none
deriving DecidableEq

/-- A langchain `Document`: page content plus metadata. -/
structure Document where
  page_content : String
  metadata : Metadata
deriving DecidableEq

/-! ### The loader `UnifiedLoader._process_dataframe` (loaders.py 215-267)

A pandas `DataFrame` is modelled as column names, per-column dtype strings,
and rows of cells.  A cell is `none` when `pd.notna` is false (NaN/None),
and `some s` when the cell holds a value whose `str()` form is `s`. -/

structure DataFrame where
  cols : List String
  dtypes : List String
  rows : List (List (Option String))
deriving DecidableEq

/-- The cell-keeping test of the row loop (loaders.py 251):
`pd.notna(val) and str(val).strip().lower() not in ["nan", "none", "null"]`. -/
def keepCell : Option String → Bool
  | none => false
  | some s => !(["nan", "none", "null"].contains (strLower (pyStrip s)))

/-- Python `str(val)` of a cell (only used on kept cells, hence `some`). -/
def cellStr : Option String → String
  | none => "nan"
  | some s => s

/-- The `row_parts` list: one `f"{col}: {val}"` entry per kept cell, in
column order (loaders.py 248-252). -/
def rowParts (cols : List String) (row : List (Option String)) : List String :=
  (cols.zip row).filterMap fun p =>
    if keepCell p.2 then some (p.1 ++ ": " ++ cellStr p.2) else none

/-- The schema document emitted first for every dataframe
(loaders.py 227-244). -/
def schemaDoc (df : DataFrame) (fileName fileType : String)
    (sheetName : Option String) : Document :=
  { page_content :=
      "Schema for " ++ fileName
        ++ (match sheetName with
            | some n => " (Sheet: " ++ n ++ ")"
            | none => "")
        ++ ":\n" ++ "Columns:\n"
        ++ pyJoin "\n" ((df.cols.zip df.dtypes).map fun p =>
              "- " ++ p.1 ++ " (" ++ p.2 ++ ")")
    metadata :=
      { mtype := some "schema", source_file := some fileName,
        file_type := some fileType, sectionLabel := some "Schema",
        sheet_name := sheetName } }

/-- The document emitted for one row (loaders.py 255-265). -/
def rowDoc (fileName fileType : String) (sheetName : Option String)
    (idx : Nat) (content : String) : Document :=
  { page_content := content
    metadata :=
      { source_file := some fileName, file_type := some fileType,
        row_index := some idx, sectionLabel := some ("Row " ++ toString idx),
        sheet_name := sheetName } }

/-- The `for idx, row in df.iterrows()` loop (loaders.py 247-265) with the
running index made explicit: emit a document for each row whose serialized
`row_content.strip()` is truthy, skip the others.  `iterrows` walks the
default range index, so a row's `row_index` is its position in the frame,
counting skipped rows too. -/
def rowDocsFrom (cols : List String) (fileName fileType : String)
    (sheetName : Option String) (idx : Nat) :
    List (List (Option String)) → List Document
  | [] => []
  | r :: rs =>
    let content := pyJoin "\n" (rowParts cols r)
    (if stripTruthy content then
        [rowDoc fileName fileType sheetName idx content]
      else []) ++ rowDocsFrom cols fileName fileType sheetName (idx + 1) rs

/-- Model of `UnifiedLoader._process_dataframe`: one schema document, then the row
documents. -/
def processDataframe (df : DataFrame) (fileName fileType : String)
    (sheetName : Option String) : List Document :=
  schemaDoc df fileName fileType sheetName ::
    rowDocsFrom df.cols fileName fileType sheetName 0 df.rows

/-- A parsed tabular file handed to `UnifiedLoader.load`. -/
inductive ParsedFile where
  | csv (df : DataFrame)
  | excel (sheets : List (String × DataFrame))
deriving DecidableEq

/-- Model of `UnifiedLoader.load` restricted to the tabular extensions
(loaders.py 282-291).  `.csv` dispatches to `load_csv`, which returns
`_process_dataframe(df, path, "csv")`.  `.xlsx`/`.xls` dispatches to
`self.load_excel(file_path)` — but no method `load_excel` exists: the
sheet-loop meant to implement it sits after the `return` statement inside
`load_csv` (loaders.py 193-213) and is unreachable dead code.  The
resulting `AttributeError` is caught by `load`'s `except` clause, which
prints the error and returns the empty list. -/
def loadTabular (fileName : String) (f : ParsedFile) : List Document :=
  match f with
  | ParsedFile.csv df => processDataframe df fileName "csv" none
  | ParsedFile.excel _ => []

/-- The unreachable Excel sheet-loop as written (loaders.py 199-207): what
`load_excel` was evidently meant to do — one `_process_dataframe` pass per
sheet with the sheet name attached. -/
def deadExcelBody (fileName : String) (sheets : List (String × DataFrame)) :
    List Document :=
  sheets.flatMap fun p => processDataframe p.2 fileName "excel" (some p.1)

/-! ### The chunker inside `ingest_documents` (ingest.py 54-84) -/

/-- The check `is_table_data` (ingest.py 67): the document is a tabular row
(`row_index` present) or a schema document (`type == "schema"`). -/
def isTableData (d : Document) : Bool :=
  d.metadata.row_index.isSome || d.metadata.mtype == some "schema"

/-- Character-indexed substring `s[off : off + n]`. -/
def strSub (s : String) (off n : Nat) : String :=
  String.mk ((s.toList.drop off).take n)

/-- Modelled from the spec: the splitter applied to oversize non-tabular
segments is the external library `RecursiveCharacterTextSplitter
(chunk_size=1000, chunk_overlap=100, add_start_index=True)`, whose code is
not part of this repository.  The spec describes it as a boundary-aware
splitter producing bounded pieces of ~1000 characters with ~100 overlap,
each recording its split start-offset.  This model emits windows of 1000
characters advancing by 900 (so consecutive pieces overlap by 100),
tagging each piece with its start offset. -/
def splitFrom (s : String) (off fuel : Nat) : List (Nat × String) :=
  match fuel with
  | 0 => []
  | Nat.succ fuel' =>
    if s.length ≤ off + 1000 then [(off, strSub s off (s.length - off))]
    else (off, strSub s off 1000) :: splitFrom s (off + 900) fuel'

/-- Split a whole string starting at offset 0. -/
def splitText (s : String) : List (Nat × String) := splitFrom s 0 (s.length + 1)

/-- Model of `text_splitter.split_documents([doc])`: each piece keeps the parent
document's metadata and records its start offset (`add_start_index=True`). -/
def splitDoc (d : Document) : List Document :=
  (splitText d.page_content).map fun p =>
    { page_content := p.2, metadata := { d.metadata with start_index := some p.1 } }

/-- The per-document chunking decision (ingest.py 65-82): tabular data
passes through unchanged; other documents are split only when longer than
1200 characters. -/
def chunkOne (d : Document) : List Document :=
  if isTableData d then [d]
  else if 1200 < d.page_content.length then splitDoc d
  else [d]

/-- The chunking pass over all loaded documents. -/
def chunkDocuments (docs : List Document) : List Document :=
  docs.flatMap chunkOne

/-! ### The retriever `UnifiedRetriever._get_relevant_documents` (retriever.py 35-74)

FAISS similarity search is external library code; it is modelled over the
index's similarity ranking for the query at hand: `ranked` lists the
stored documents in descending similarity order, and a top-`k` search
returns the first `k` of them.  A filtered search returns the top matches
among documents satisfying the filter, or raises (TypeError/ValueError)
when the store does not support filters. -/

/-- A schema-typed document (`metadata.get("type") == "schema"`). -/
def isSchemaDoc (d : Document) : Bool := d.metadata.mtype == some "schema"

/-- Model of `vectorstore.similarity_search(query, k)`. -/
def similaritySearch (ranked : List Document) (k : Nat) : List Document :=
  ranked.take k

/-- Model of `vectorstore.similarity_search(query, k, filter={"type": "schema"})`,
which raises when filters are unsupported. -/
def similaritySearchSchema (ranked : List Document) (k : Nat)
    (supportsFilter : Bool) : Except Unit (List Document) :=
  if supportsFilter then Except.ok ((ranked.filter isSchemaDoc).take k)
  else Except.error ()

/-- Phase 1 (retriever.py 41-52): try the filtered search for the top 2
schema documents; on TypeError/ValueError fall back to an unfiltered
top-10 search post-filtered to schema documents, keeping at most 2. -/
def schemaPhase (ranked : List Document) (supportsFilter : Bool) : List Document :=
  match similaritySearchSchema ranked 2 supportsFilter with
  | Except.ok ds => ds
  | Except.error _ => ((similaritySearch ranked 10).filter isSchemaDoc).take 2

/-- The `seen_contents` loop (retriever.py 61-72): keep the first
occurrence of each exact `page_content`. -/
def dedupSeen (seen : List String) : List Document → List Document
  | [] => []
  | d :: ds =>
    if seen.contains d.page_content then dedupSeen seen ds
    else d :: dedupSeen (d.page_content :: seen) ds

/-- Model of `_get_relevant_documents`: schema phase first, then an unfiltered
top-`k` content search, first-occurrence deduplicated, capped at `k + 1`. -/
def getRelevantDocuments (ranked : List Document) (supportsFilter : Bool)
    (k : Nat) : List Document :=
  (dedupSeen [] (schemaPhase ranked supportsFilter ++ similaritySearch ranked k)).take (k + 1)

/-- The ordering property claimed of retrieval results: every schema-typed
chunk precedes every content (non-schema) chunk in the list. -/
def schemaBeforeContent (l : List Document) : Prop :=
  ∀ (i j : Nat) (di dj : Document), l[i]? = some di → l[j]? = some dj →
    isSchemaDoc di = true → isSchemaDoc dj = false → i < j

/-! ### The `get_retriever` fallback and `ingest_documents` store update -/

/-- The placeholder document seeded into the fallback store
(retriever.py 99-102). -/
def emptyStoreDoc : Document :=
  { page_content := "Empty Store", metadata := { source := some "system" } }

/-- Model of `get_retriever` (retriever.py 88-102): when `FAISS.load_local` on the
persisted index raises (index missing or corrupt), the store is created
from a single placeholder document instead of aborting. -/
def retrieverStoreDocs (loadRes : Except String (List Document)) : List Document :=
  match loadRes with
  | Except.ok docs => docs
  | Except.error _ => [emptyStoreDoc]

/-- The `ingest_documents` store update (ingest.py 92-104): add the new chunks
to the loaded store; if loading or updating raised, create a fresh store
holding exactly the new chunks. -/
def ingestStoreUpdate (existing : Except String (List Document))
    (finalChunks : List Document) : List Document :=
  match existing with
  | Except.ok docs => docs ++ finalChunks
  | Except.error _ => finalChunks

/-! ### The router `FallbackAwareLLM` (llm_manager.py 22-53)

A provider's behaviour on the given messages is `Except String α`:
`ok v` when `llm.invoke` returns `v`, `error e` when it raises with
message `e`. -/

/-- Outcome of `FallbackAwareLLM.invoke`: a normal return (Python returns
`None` when the provider list is empty, hence the `Option`), or a raised
`RuntimeError("All LLMs failed. Errors: ...")` carrying every individual
failure message in order. -/
inductive InvokeOutcome (α : Type) where
  | success : Option α → InvokeOutcome α
  | raised : List String → InvokeOutcome α
deriving DecidableEq

/-- The provider loop of `invoke` (llm_manager.py 41-50) with the `errors`
accumulator: return on the first success; on failure record the error and
continue, raising the aggregate only after the last provider fails. -/
def invokeAux {α : Type} (errs : List String) :
    List (Except String α) → InvokeOutcome α
  | [] => InvokeOutcome.success none
  | p :: rest =>
    match p, rest with
    | Except.ok v, _ => InvokeOutcome.success (some v)
    | Except.error e, [] => InvokeOutcome.raised (errs ++ [e])
    | Except.error e, r :: rs => invokeAux (errs ++ [e]) (r :: rs)

/-- Model of `FallbackAwareLLM.invoke` over the ordered provider behaviours. -/
def routerInvoke {α : Type} (providers : List (Except String α)) : InvokeOutcome α :=
  invokeAux [] providers

/-- One provider binding with its accumulated bind-time configuration
(e.g. stop tokens); `llm.bind(**kwargs)` appends the kwargs. -/
structure BoundLLM where
  providerId : Nat
  boundKwargs : List (String × String)
deriving DecidableEq

/-- Model of `llm.bind(**kwargs)` on one provider. -/
def bindOne (kwargs : List (String × String)) (llm : BoundLLM) : BoundLLM :=
  { llm with boundKwargs := llm.boundKwargs ++ kwargs }

/-- The router: an ordered list of provider bindings. -/
structure FallbackAwareLLM where
  llms : List BoundLLM
deriving DecidableEq

/-- Model of `FallbackAwareLLM.bind` (llm_manager.py 30-39): bind every internal
provider with the same kwargs and wrap the results in a new router. -/
def routerBind (r : FallbackAwareLLM) (kwargs : List (String × String)) :
    FallbackAwareLLM :=
  { llms := r.llms.map (bindOne kwargs) }

/-! ### Intent classification (intents.py) -/

def INTENT_HR_POLICY : String := "HR_POLICY"
def INTENT_GENERAL_FACT : String := "GENERAL_FACT"
def INTENT_SMALL_TALK : String := "SMALL_TALK"

/-- The fixed policy keyword list of `_heuristic_intent` (intents.py 59). -/
def hrKeywords : List String :=
  ["leave", "policy", "vacation", "sick", "approval", "hr", "benefit", "payroll"]

/-- The fixed fact keyword list of `_heuristic_intent` (intents.py 60). -/
def factKeywords : List String :=
  ["weather", "who is", "what is", "capital", "population"]

/-- Model of `_heuristic_intent` (intents.py 56-70): lowercase the query, test every
policy keyword (substring membership) before any fact keyword, default to
SMALL_TALK. -/
def heuristicIntent (query : String) : String :=
  let q := strLower query
  if hrKeywords.any (fun k => strIn k q) then INTENT_HR_POLICY
  else if factKeywords.any (fun k => strIn k q) then INTENT_GENERAL_FACT
  else INTENT_SMALL_TALK

/-- Model of `classify_intent` (intents.py 32-54).  The language model is `none`
when the model path is disabled (the `ChatOpenAI` default cannot be
constructed), otherwise a function from (query, history) to the model's
reply or a raised error.  A reply outside the closed intent set is coerced
to SMALL_TALK; a raised error falls back to the keyword heuristic. -/
def classifyIntent (llm : Option (String → String → Except String String))
    (userQuery chatHistory : String) : String :=
  match llm with
  | none => heuristicIntent userQuery
  | some f =>
    match f userQuery chatHistory with
    | Except.ok out =>
      let intent := pyStrip out
      if intent == INTENT_HR_POLICY || intent == INTENT_GENERAL_FACT
          || intent == INTENT_SMALL_TALK then intent
      else INTENT_SMALL_TALK
    | Except.error _ => heuristicIntent userQuery

/-! ### Conversation memory (database.py 141-157, memory_manager.py 14-37) -/

/-- One persisted message row; the database list is kept in insertion
(= chronological timestamp) order. -/
structure DBMessage where
  session_id : String
  role : String
  content : String
deriving DecidableEq

/-- Model of `DatabaseManager.get_messages`: filter by session, `ORDER BY timestamp
DESC LIMIT limit`, then reverse back into chronological order. -/
def getMessages (db : List DBMessage) (sid : String) (limit : Nat) :
    List DBMessage :=
  (((db.filter fun m => m.session_id == sid).reverse).take limit).reverse

/-- Model of `MemoryManager.get_memory`: on every call build a fresh window from
durable storage — fetch the last `2 * windowSize` messages of the session
and keep those whose role is `user` or `assistant`. -/
def getMemoryMessages (db : List DBMessage) (windowSize : Nat) (sid : String) :
    List DBMessage :=
  (getMessages db sid (windowSize * 2)).filter fun m =>
    m.role == "user" || m.role == "assistant"

/-! ### The orchestrator `ElevixAgent.handle_query` (agent.py 90-182) -/

/-- The response dictionary returned by `handle_query`. -/
structure AgentResponse where
  content : String
  intent : String
  session_id : String
  sources : List String
  thoughts : List String
deriving DecidableEq

/-- Model of `handle_query` from step 5 on: the agent-executor run either returns
`(answer, captured sources, thoughts)` or raises with message `e`.  On
success the user message and the answer are saved to the database inside
the `try` block and the response carries the captured sources; on an
exception the `except` branch returns the apologetic answer with empty
sources and thoughts, and no save is executed.  Returns the response
together with the database state after the call. -/
def handleQuery (execRes : Except String (String × List String × List String))
    (db : List DBMessage) (sessionId userQuery intent : String) :
    AgentResponse × List DBMessage :=
  match execRes with
  | Except.ok (answer, srcs, ths) =>
    ({ content := answer, intent := intent, session_id := sessionId,
       sources := srcs, thoughts := ths },
     db ++ [⟨sessionId, "user", userQuery⟩, ⟨sessionId, "assistant", answer⟩])
  | Except.error e =>
    ({ content := "I apologize, but I encountered an error: " ++ e,
       intent := intent, session_id := sessionId, sources := [], thoughts := [] },
     db)

/-! ### Concrete instances used in the claim theorems -/

/-- A 4-row employee frame: one fully-null row and one row holding only
the literal strings `"NaN"` / `" null "`. -/
def exDf : DataFrame :=
  { cols := ["name", "department"], dtypes := ["object", "object"],
    rows := [[some "Alice", some "HR"], [none, none],
             [some "NaN", some " null "], [some "Bob", none]] }

/-- One Excel sheet wrapping `exDf`. -/
def exSheets : List (String × DataFrame) := [("Sheet1", exDf)]

/-- A frame whose every cell is null or a null-sentinel string. -/
def exDfAllSentinels : DataFrame :=
  { cols := ["a", "b"], dtypes := ["object", "float64"],
    rows := [[some "NaN", none], [some " null ", some "None"]] }

/-- Retrieval counterexample documents: three schema documents and two
content documents, listed in similarity order for some query. -/
def docS1 : Document := { page_content := "S1", metadata := { mtype := some "schema" } }

def docS2 : Document := { page_content := "S2", metadata := { mtype := some "schema" } }

def docS3 : Document := { page_content := "S3", metadata := { mtype := some "schema" } }

def docC1 : Document := { page_content := "C1", metadata := {} }

def docC2 : Document := { page_content := "C2", metadata := {} }

/-- An index holding three schema and two content documents, in similarity
order for the query at hand: the third-ranked schema document sits between
the two content documents. -/
def exRanked : List Document := [docS1, docS2, docC1, docS3, docC2]

/-- A long tabular row document (must never be split). -/
def exRowDocLong : Document :=
  { page_content := String.mk (List.replicate 1300 'r'),
    metadata := { row_index := some 0 } }

/-- A short non-tabular document (at most 1200 chars). -/
def exShortDoc : Document := { page_content := "short text", metadata := {} }

/-- A 1300-char non-tabular document (over the 1200-char ceiling). -/
def exLongDoc : Document :=
  { page_content := String.mk (List.replicate 1300 'a'), metadata := {} }

/-- The two messages of conversation turn `i` in session `"s"`. -/
def exTurnMsgs (i : Nat) : List DBMessage :=
  [⟨"s", "user", "q" ++ toString i⟩, ⟨"s", "assistant", "a" ++ toString i⟩]

/-! ## Supporting lemmas -/

set_option maxRecDepth 10000

/-- Taking a limited run from the reversed list and reversing back yields
a suffix of the original list. -/
theorem reverse_take_reverse_isSuffix {α : Type} (l : List α) (n : Nat) :
    (l.reverse.take n).reverse <:+ l := by
  refine ⟨(l.reverse.drop n).reverse, ?_⟩
  calc (l.reverse.drop n).reverse ++ (l.reverse.take n).reverse
      = (l.reverse.take n ++ l.reverse.drop n).reverse :=
        (List.reverse_append _ _).symm
    _ = l.reverse.reverse := by rw [List.take_append_drop]
    _ = l := List.reverse_reverse l

/-- Filtering preserves the suffix relation. -/
theorem isSuffix_filter {α : Type} (p : α → Bool) {l₁ l₂ : List α}
    (h : l₁ <:+ l₂) : l₁.filter p <:+ l₂.filter p := by
  obtain ⟨t, rfl⟩ := h
  exact ⟨t.filter p, (List.filter_append _ _).symm⟩

/-- Running `invoke` on a provider that succeeds immediately. -/
theorem invokeAux_cons_ok {α : Type} (acc : List String) (v : α)
    (rest : List (Except String α)) :
    invokeAux acc (Except.ok v :: rest) = InvokeOutcome.success (some v) := by
  cases rest <;> rfl

/-- Running `invoke` after the last provider fails. -/
theorem invokeAux_last_error {α : Type} (acc : List String) (e : String) :
    (invokeAux acc [Except.error e] : InvokeOutcome α) =
      InvokeOutcome.raised (acc ++ [e]) := rfl

/-- Running `invoke` on a non-last failing provider records the error and moves on. -/
theorem invokeAux_cons_error {α : Type} (acc : List String) (e : String)
    (r : Except String α) (rs : List (Except String α)) :
    invokeAux acc (Except.error e :: r :: rs) = invokeAux (acc ++ [e]) (r :: rs) := rfl

/-- The provider loop returns the first success, skipping any run of
failing providers before it. -/
theorem invokeAux_first_ok {α : Type} (v : α) (rest : List (Except String α)) :
    ∀ (pre : List String) (acc : List String),
      invokeAux acc (pre.map Except.error ++ Except.ok v :: rest) =
        InvokeOutcome.success (some v) := by
  intro pre
  induction pre with
  | nil => intro acc; simpa using invokeAux_cons_ok acc v rest
  | cons e pre' ih =>
    intro acc
    cases pre' with
    | nil => simpa [invokeAux_cons_error] using invokeAux_cons_ok (acc ++ [e]) v rest
    | cons e' pp => simpa [invokeAux_cons_error] using ih (acc ++ [e])

/-- The provider loop over failures only raises the aggregate of every
recorded error, in order. -/
theorem invokeAux_all_fail {α : Type} :
    ∀ (errs acc : List String), errs ≠ [] →
      (invokeAux acc (errs.map Except.error) : InvokeOutcome α) =
        InvokeOutcome.raised (acc ++ errs) := by
  intro errs
  induction errs with
  | nil => intro acc h; exact absurd rfl h
  | cons e es ih =>
    intro acc _
    cases es with
    | nil => simpa using invokeAux_last_error (α := α) acc e
    | cons e' es' =>
      have h := ih (acc ++ [e]) (by simp)
      simpa [invokeAux_cons_error, List.append_assoc] using h

/-! ## Claims -/

/-- C3: the router's `invoke` tries providers strictly in list order,
catching each provider failure and moving on; if some provider succeeds
(here: after a run of failing providers) its result is returned, and if
every provider fails `invoke` raises one aggregate error carrying every
individual failure message in order. -/
theorem router_invoke_order_spec {α : Type} (pre errs : List String) (v : α)
    (rest : List (Except String α)) (h : errs ≠ []) :
    routerInvoke (pre.map Except.error ++ Except.ok v :: rest) =
      InvokeOutcome.success (some v) ∧
    routerInvoke (errs.map Except.error : List (Except String α)) =
      InvokeOutcome.raised errs := by
  constructor
  · exact invokeAux_first_ok v rest pre []
  · simpa using invokeAux_all_fail (α := α) errs [] h

/-- C3 witness: with providers [fail, fail, succeed] the third provider's
result is returned; with [fail, fail, fail] the aggregate error names all
three failures. -/
theorem router_invoke_order_spec_witness :
    routerInvoke [Except.error "e1", Except.error "e2",
        (Except.ok "ans" : Except String String)] =
      InvokeOutcome.success (some "ans") ∧
    routerInvoke ([Except.error "e1", Except.error "e2", Except.error "e3"] :
        List (Except String String)) =
      InvokeOutcome.raised ["e1", "e2", "e3"] := by
  have h := router_invoke_order_spec ["e1", "e2"] ["e1", "e2", "e3"] "ans"
    ([] : List (Except String String)) (by simp)
  exact ⟨by simpa using h.1, by simpa using h.2⟩

/-- C9: `FallbackAwareLLM.bind` applies the same bind-time configuration to
every provider in the ordered list — position by position the bound router
holds exactly the old provider with the kwargs appended, so failover to any
later provider keeps the configuration. -/
theorem router_bind_uniform_spec (r : FallbackAwareLLM)
    (kwargs : List (String × String)) :
    (routerBind r kwargs).llms.length = r.llms.length ∧
    (∀ i : Nat, (routerBind r kwargs).llms[i]? =
      (r.llms[i]?).map (bindOne kwargs)) ∧
    (∀ llm ∈ (routerBind r kwargs).llms,
      ∃ l0 ∈ r.llms, llm = bindOne kwargs l0 ∧
        llm.boundKwargs = l0.boundKwargs ++ kwargs) := by
  refine ⟨List.length_map _ _, fun i => List.getElem?_map _ _ _, ?_⟩
  intro llm hm
  rcases List.mem_map.mp hm with ⟨l0, hl0, rfl⟩
  exact ⟨l0, hl0, rfl, rfl⟩

/-- C2 counterexample: when the agent executor raises (e.g. every LLM
provider is exhausted), `handle_query` returns the apologetic answer with
empty sources but does *not* persist the turn: starting from an empty
store, the store is still empty after the failed turn, so neither the user
message nor the answer was saved. -/
theorem handle_query_failure_not_persisted_cex :
    (handleQuery (Except.error "All LLMs failed. Errors: ['rate limit']")
        [] "s1" "How many leave days do I get?" "HR_POLICY").2 = [] ∧
    (handleQuery (Except.error "All LLMs failed. Errors: ['rate limit']")
        [] "s1" "How many leave days do I get?" "HR_POLICY").1.sources = [] := by
  exact ⟨rfl, rfl⟩

/-- C2 (amended): on an unrecoverable reasoning failure `handle_query`
returns an apologetic answer with empty citations and empty thoughts, and
the durable store is left unchanged — the failed turn is not persisted;
only a successful turn persists the user message and the answer. -/
theorem handle_query_failure_behavior (e : String) (db : List DBMessage)
    (sid q intent a : String) (srcs ths : List String) :
    (handleQuery (Except.error e) db sid q intent).1.content =
      "I apologize, but I encountered an error: " ++ e ∧
    (handleQuery (Except.error e) db sid q intent).1.sources = [] ∧
    (handleQuery (Except.error e) db sid q intent).1.thoughts = [] ∧
    (handleQuery (Except.error e) db sid q intent).2 = db ∧
    (handleQuery (Except.ok (a, srcs, ths)) db sid q intent).2 =
      db ++ [⟨sid, "user", q⟩, ⟨sid, "assistant", a⟩] ∧
    (handleQuery (Except.ok (a, srcs, ths)) db sid q intent).1.content = a ∧
    (handleQuery (Except.ok (a, srcs, ths)) db sid q intent).1.sources = srcs := by
  exact ⟨rfl, rfl, rfl, rfl, rfl, rfl, rfl⟩

/-- C6: with the classifier's language-model path disabled (`none`) or
erroring, classification falls back to the keyword heuristic; the
heuristic always lands in the closed intent set; every policy keyword is
tested before any fact keyword (a policy-keyword hit wins regardless of
fact-keyword hits); and "leave policy" maps to the policy intent,
"weather in Tokyo" to GENERAL_FACT, "hello" to SMALL_TALK. -/
theorem intent_fallback_spec (q hist emsg : String) :
    classifyIntent none q hist = heuristicIntent q ∧
    classifyIntent (some fun _ _ => Except.error emsg) q hist = heuristicIntent q ∧
    (heuristicIntent q = INTENT_HR_POLICY ∨ heuristicIntent q = INTENT_GENERAL_FACT ∨
      heuristicIntent q = INTENT_SMALL_TALK) ∧
    (hrKeywords.any (fun k => strIn k (strLower q)) = true →
      heuristicIntent q = INTENT_HR_POLICY) ∧
    heuristicIntent "leave policy" = INTENT_HR_POLICY ∧
    heuristicIntent "weather in Tokyo" = INTENT_GENERAL_FACT ∧
    heuristicIntent "hello" = INTENT_SMALL_TALK := by
  refine ⟨rfl, rfl, ?_, ?_, by decide, by decide, by decide⟩
  · by_cases h1 : hrKeywords.any (fun k => strIn k (strLower q)) <;>
      by_cases h2 : factKeywords.any (fun k => strIn k (strLower q)) <;>
      simp [heuristicIntent, h1, h2]
  · intro h
    simp [heuristicIntent, h]

/-- C6 witness: a query matching both a policy keyword ("leave") and a
fact keyword ("weather") is classified as the policy intent by the
disabled-model path. -/
theorem intent_fallback_spec_witness :
    heuristicIntent "annual leave and weather today" = INTENT_HR_POLICY ∧
    classifyIntent none "annual leave and weather today" "" =
      heuristicIntent "annual leave and weather today" := by
  have h := intent_fallback_spec "annual leave and weather today" "" "model down"
  exact ⟨h.2.2.2.1 (by decide), h.1⟩

/-- C8: the memory window is rebuilt from durable storage on each call: it
is a suffix (hence chronological tail) of the session's stored
user/assistant messages, holds at most `2 * N` messages, the underlying
fetch takes exactly the most recent `min (2N, total)` messages, and with
window `N = 5` and 20 prior turns (40 messages) it returns exactly the
most recent 10 messages. -/
theorem memory_window_spec (db : List DBMessage) (sid : String) (N : Nat) :
    (getMemoryMessages db N sid).length ≤ 2 * N ∧
    getMemoryMessages db N sid <:+
      ((db.filter fun m => m.session_id == sid).filter fun m =>
        m.role == "user" || m.role == "assistant") ∧
    (getMessages db sid (N * 2)).length =
      min (N * 2) (db.filter fun m => m.session_id == sid).length ∧
    getMemoryMessages ((List.range 20).flatMap exTurnMsgs) 5 "s" =
      ((List.range 20).drop 15).flatMap exTurnMsgs := by
  refine ⟨?_, ?_, ?_, by decide⟩
  · have h1 := List.length_filter_le
      (fun m => m.role == "user" || m.role == "assistant")
      (getMessages db sid (N * 2))
    have h2 : (getMessages db sid (N * 2)).length ≤ N * 2 := by
      unfold getMessages
      simp [List.length_take]
    calc (getMemoryMessages db N sid).length
        ≤ (getMessages db sid (N * 2)).length := h1
      _ ≤ N * 2 := h2
      _ = 2 * N := Nat.mul_comm N 2
  · exact isSuffix_filter _ (reverse_take_reverse_isSuffix _ _)
  · unfold getMessages
    simp [List.length_take]

/-- The loop `dedupSeen` keeps an in-order selection of its input. -/
theorem dedupSeen_sublist (seen : List String) (l : List Document) :
    List.Sublist (dedupSeen seen l) l := by
  induction l generalizing seen with
  | nil => simp [dedupSeen]
  | cons d ds ih =>
    rw [dedupSeen]
    by_cases h : seen.contains d.page_content
    · rw [if_pos h]; exact List.Sublist.cons d (ih seen)
    · rw [if_neg h]; exact List.Sublist.cons₂ d (ih _)

/-- Running `dedupSeen` over an append splits into an in-order selection of the
first part followed by an in-order selection of the second part. -/
theorem dedupSeen_append (seen : List String) (a b : List Document) :
    ∃ a' b', dedupSeen seen (a ++ b) = a' ++ b' ∧
      List.Sublist a' a ∧ List.Sublist b' b := by
  induction a generalizing seen with
  | nil =>
    exact ⟨[], dedupSeen seen b, by simp, List.Sublist.refl [],
      dedupSeen_sublist seen b⟩
  | cons d a ih =>
    rw [List.cons_append, dedupSeen]
    by_cases h : seen.contains d.page_content
    · rw [if_pos h]
      obtain ⟨a', b', heq, ha, hb⟩ := ih seen
      exact ⟨a', b', heq, ha.cons d, hb⟩
    · rw [if_neg h]
      obtain ⟨a', b', heq, ha, hb⟩ := ih (d.page_content :: seen)
      exact ⟨d :: a', b', by simp [heq], ha.cons₂ d, hb⟩

/-- The contents selected by `dedupSeen` are pairwise distinct and avoid
the `seen` set. -/
theorem dedupSeen_nodup (seen : List String) (l : List Document) :
    ((dedupSeen seen l).map (fun d => d.page_content)).Nodup ∧
      ∀ x ∈ (dedupSeen seen l).map (fun d => d.page_content), x ∉ seen := by
  induction l generalizing seen with
  | nil => simp [dedupSeen]
  | cons d ds ih =>
    rw [dedupSeen]
    by_cases h : seen.contains d.page_content
    · rw [if_pos h]; exact ih seen
    · rw [if_neg h]
      obtain ⟨hnd, hnotin⟩ := ih (d.page_content :: seen)
      have hdp : d.page_content ∉ seen := by
        intro hm
        exact h (List.elem_iff.mpr hm)
      refine ⟨?_, ?_⟩
      · simp only [List.map_cons, List.nodup_cons]
        exact ⟨fun hmem => (hnotin _ hmem) (List.mem_cons_self _ _), hnd⟩
      · intro x hx
        simp only [List.map_cons, List.mem_cons] at hx
        rcases hx with rfl | hx
        · exact hdp
        · intro hxs
          exact (hnotin x hx) (List.mem_cons_of_mem _ hxs)

/-- C4 (amended): the retrieval result is capped at `k + 1`, its contents
are exactly-deduplicated, and it decomposes as (at most 2, all
schema-typed) schema-phase picks followed in order by content-phase picks;
a schema-typed chunk may still appear in the content-phase part when the
unfiltered top-`k` content search surfaces it, so only the schema-phase
picks are guaranteed to precede the content chunks. -/
theorem retrieval_two_phase_spec (ranked : List Document) (sf : Bool) (k : Nat) :
    (getRelevantDocuments ranked sf k).length ≤ k + 1 ∧
    (schemaPhase ranked sf).length ≤ 2 ∧
    (∀ d ∈ schemaPhase ranked sf, isSchemaDoc d = true) ∧
    (∃ s c, getRelevantDocuments ranked sf k = s ++ c ∧
      List.Sublist s (schemaPhase ranked sf) ∧
      List.Sublist c (similaritySearch ranked k) ∧
      ∀ d ∈ s, isSchemaDoc d = true) ∧
    ((getRelevantDocuments ranked sf k).map fun d => d.page_content).Nodup := by
  have hschema : ∀ d ∈ schemaPhase ranked sf, isSchemaDoc d = true := by
    intro d hd
    unfold schemaPhase similaritySearchSchema at hd
    cases sf with
    | true =>
      simp only [if_pos] at hd
      exact List.of_mem_filter ((List.take_sublist _ _).subset hd)
    | false =>
      simp only [if_neg, Bool.false_eq_true, not_false_iff, reduceIte] at hd
      exact List.of_mem_filter ((List.take_sublist _ _).subset hd)
  have hlen2 : (schemaPhase ranked sf).length ≤ 2 := by
    unfold schemaPhase similaritySearchSchema
    cases sf <;> simp [List.length_take]
  obtain ⟨a', b', heq, ha, hb⟩ :=
    dedupSeen_append [] (schemaPhase ranked sf) (similaritySearch ranked k)
  refine ⟨?_, hlen2, hschema,
    ⟨a'.take (k + 1), b'.take (k + 1 - a'.length), ?_, ?_, ?_, ?_⟩, ?_⟩
  · exact List.length_take_le _ _
  · unfold getRelevantDocuments
    rw [heq, List.take_append_eq_append_take]
  · exact (List.take_sublist _ _).trans ha
  · exact (List.take_sublist _ _).trans hb
  · intro d hd
    exact hschema d (((List.take_sublist _ _).trans ha).subset hd)
  · have h1 := (dedupSeen_nodup []
      (schemaPhase ranked sf ++ similaritySearch ranked k)).1
    exact h1.sublist ((List.take_sublist _ _).map _)

/-- C4 counterexample: with three schema documents in the index and the
third-ranked one surfacing through the unfiltered content search, the
result is [S1, S2, C1, S3, C2]: the schema-typed chunk S3 (position 3)
comes *after* the content chunk C1 (position 2), so it is false that every
schema-type chunk in the result precedes every content chunk. -/
theorem retrieval_schema_order_cex :
    getRelevantDocuments exRanked true 5 = [docS1, docS2, docC1, docS3, docC2] ∧
    ¬ schemaBeforeContent (getRelevantDocuments exRanked true 5) := by
  have heq : getRelevantDocuments exRanked true 5 =
      [docS1, docS2, docC1, docS3, docC2] := by decide
  refine ⟨heq, fun h => ?_⟩
  have h32 := h 3 2 docS3 docC1 (by rw [heq]; rfl) (by rw [heq]; rfl)
    (by decide) (by decide)
  omega

/-- C5 counterexample: when loading the persisted index fails, the
fallback store is seeded with the "Empty Store" placeholder document, and
a query against it returns that placeholder — a non-empty result list,
not the empty list the claim requires. -/
theorem missing_index_query_nonempty_cex :
    getRelevantDocuments (retrieverStoreDocs (Except.error "index missing")) true 5 =
      [emptyStoreDoc] ∧
    [emptyStoreDoc] ≠ ([] : List Document) := by
  exact ⟨by decide, by simp⟩

/-- C5 (amended): a load failure falls back without aborting — ingestion
creates a fresh store holding exactly the new chunks, and the retriever
creates a store seeded with the single "Empty Store" placeholder document;
a subsequent query (any `k ≥ 1`, with or without filter support) raises no
error but returns the placeholder document, not an empty list. -/
theorem missing_index_fallback_spec (e : String) (sf : Bool) (k : Nat)
    (chunks : List Document) (hk : 1 ≤ k) :
    retrieverStoreDocs (Except.error e) = [emptyStoreDoc] ∧
    getRelevantDocuments (retrieverStoreDocs (Except.error e)) sf k =
      [emptyStoreDoc] ∧
    ingestStoreUpdate (Except.error e) chunks = chunks := by
  refine ⟨rfl, ?_, rfl⟩
  obtain ⟨k, rfl⟩ : ∃ n, k = n + 1 := ⟨k - 1, (Nat.succ_pred_eq_of_pos hk).symm⟩
  cases sf <;>
    simp [getRelevantDocuments, schemaPhase, similaritySearch,
      similaritySearchSchema, dedupSeen, retrieverStoreDocs, emptyStoreDoc,
      isSchemaDoc]

/-- C5 witness: the amended fallback behaviour at `k = 5` without filter
support. -/
theorem missing_index_fallback_spec_witness :
    getRelevantDocuments (retrieverStoreDocs (Except.error "missing")) false 5 =
      [emptyStoreDoc] :=
  (missing_index_fallback_spec "missing" false 5 [] (by decide)).2.1

/-- Length of a character-indexed substring. -/
theorem strSub_length (s : String) (off n : Nat) :
    (strSub s off n).length = min n (s.length - off) := by
  show ((s.toList.drop off).take n).length = min n (s.length - off)
  rw [List.length_take, List.length_drop]
  rfl

/-- Re-taking a substring at its own length is the identity. -/
theorem strSub_self_length (s : String) (off n : Nat) :
    strSub s off ((strSub s off n).length) = strSub s off n := by
  rw [strSub_length]
  unfold strSub
  refine congrArg String.mk ?_
  refine (List.take_eq_take).mpr ?_
  have h : s.toList.length = s.length := rfl
  rw [List.length_drop, h]
  omega

/-- Every piece emitted by the splitter loop is the substring of the source
at its recorded offset, and is at most 1000 characters long. -/
theorem splitFrom_mem (s : String) :
    ∀ (fuel off : Nat), ∀ p ∈ splitFrom s off fuel,
      p.2 = strSub s p.1 (p.2.length) ∧ p.2.length ≤ 1000 := by
  intro fuel
  induction fuel with
  | zero => intro off p hp; simp [splitFrom] at hp
  | succ f ih =>
    intro off p hp
    rw [splitFrom] at hp
    by_cases hc : s.length ≤ off + 1000
    · rw [if_pos hc] at hp
      simp only [List.mem_singleton] at hp
      subst hp
      refine ⟨(strSub_self_length s off _).symm, ?_⟩
      rw [strSub_length]
      omega
    · rw [if_neg hc] at hp
      rcases List.mem_cons.mp hp with rfl | hp'
      · refine ⟨(strSub_self_length s off _).symm, ?_⟩
        rw [strSub_length]
        omega
      · exact ih (off + 900) p hp'

/-- Consecutive split offsets advance by exactly 900 characters, so
consecutive 1000-character pieces overlap by 100. -/
theorem splitFrom_offsets_chain (s : String) :
    ∀ (fuel off : Nat),
      List.Chain' (fun a b => b = a + 900)
        ((splitFrom s off fuel).map Prod.fst) := by
  intro fuel
  induction fuel with
  | zero => intro off; simp [splitFrom]
  | succ f ih =>
    intro off
    rw [splitFrom]
    by_cases hc : s.length ≤ off + 1000
    · rw [if_pos hc]; simp
    · rw [if_neg hc]
      simp only [List.map_cons]
      refine List.chain'_cons'.mpr ⟨?_, ih (off + 900)⟩
      intro y hy
      cases f with
      | zero => simp [splitFrom] at hy
      | succ f' =>
        rw [splitFrom] at hy
        by_cases hc2 : s.length ≤ off + 900 + 1000
        · rw [if_pos hc2] at hy
          simp at hy
          omega
        · rw [if_neg hc2] at hy
          simp at hy
          omega

/-- The split of a whole string starts at offset 0. -/
theorem splitText_head_offset (s : String) :
    ((splitText s).map Prod.fst).head? = some 0 := by
  simp only [splitText, splitFrom]
  split <;> simp

/-- The start offsets recorded in the split documents' provenance are the
split offsets, in order. -/
theorem splitDoc_offsets_aux (md : Metadata) (l : List (Nat × String)) :
    ((l.map fun p =>
        ({ page_content := p.2,
           metadata := { md with start_index := some p.1 } } : Document)).filterMap
      fun c => c.metadata.start_index) = l.map Prod.fst := by
  induction l with
  | nil => rfl
  | cons p ps ih => simp [ih]

/-- The split `splitDoc` records exactly the split offsets in provenance. -/
theorem splitDoc_offsets (d : Document) :
    ((splitDoc d).filterMap fun c => c.metadata.start_index) =
      (splitText d.page_content).map Prod.fst := by
  unfold splitDoc
  exact splitDoc_offsets_aux d.metadata (splitText d.page_content)

/-- C7: tabular row/schema segments pass through the chunker unchanged;
non-tabular segments at or under the 1200-character ceiling become exactly
one unchanged chunk; non-tabular segments over the ceiling are split into
pieces of at most 1000 characters, each carrying the parent metadata plus
its split start-offset, with the content equal to the source substring at
that offset, offsets starting at 0 and consecutive offsets 900 apart (100
characters of overlap between full pieces). -/
theorem chunker_dispatch_spec (d : Document) :
    (isTableData d = true → chunkOne d = [d]) ∧
    (isTableData d = false → d.page_content.length ≤ 1200 → chunkOne d = [d]) ∧
    (isTableData d = false → 1200 < d.page_content.length →
      chunkOne d = splitDoc d ∧
      (∀ c ∈ splitDoc d, ∃ off,
        c.metadata = { d.metadata with start_index := some off } ∧
        c.page_content = strSub d.page_content off c.page_content.length ∧
        c.page_content.length ≤ 1000) ∧
      List.Chain' (fun a b => b = a + 900)
        ((splitDoc d).filterMap fun c => c.metadata.start_index) ∧
      ((splitDoc d).filterMap fun c => c.metadata.start_index).head? = some 0) := by
  refine ⟨?_, ?_, ?_⟩
  · intro h
    simp [chunkOne, h]
  · intro h1 h2
    simp [chunkOne, h1, Nat.not_lt.mpr h2]
  · intro h1 h2
    refine ⟨by simp [chunkOne, h1, h2], ?_, ?_, ?_⟩
    · intro c hc
      rcases List.mem_map.mp hc with ⟨p, hp, rfl⟩
      obtain ⟨hsub, hlen⟩ := splitFrom_mem d.page_content _ 0 p hp
      exact ⟨p.1, rfl, hsub, hlen⟩
    · rw [splitDoc_offsets]
      exact splitFrom_offsets_chain d.page_content _ 0
    · rw [splitDoc_offsets]
      exact splitText_head_offset d.page_content

/-- C7 witness: a long tabular row document passes through unchanged, a
short text document becomes one unchanged chunk, and a 1300-character text
document is handed to the splitter. -/
theorem chunker_dispatch_spec_witness :
    chunkOne exRowDocLong = [exRowDocLong] ∧
    chunkOne exShortDoc = [exShortDoc] ∧
    chunkOne exLongDoc = splitDoc exLongDoc := by
  refine ⟨(chunker_dispatch_spec exRowDocLong).1 (by decide),
    (chunker_dispatch_spec exShortDoc).2.1 (by decide) (by decide),
    ((chunker_dispatch_spec exLongDoc).2.2 (by decide) (by decide)).1⟩

/-- Joining a nonempty list of parts starts with the first part. -/
theorem pyJoin_cons (sep p : String) (ps : List String) :
    ∃ t, (pyJoin sep (p :: ps)).toList = p.toList ++ t := by
  cases ps with
  | nil => exact ⟨[], by simp [pyJoin]⟩
  | cons q qs =>
    refine ⟨sep.toList ++ (pyJoin sep (q :: qs)).toList, ?_⟩
    show (p ++ sep ++ pyJoin sep (q :: qs)).data =
      p.data ++ (sep.data ++ (pyJoin sep (q :: qs)).data)
    simp [String.data_append]

/-- Every serialized row part `col ++ ": " ++ val` contains a colon. -/
theorem rowParts_mem_colon (cols : List String) (row : List (Option String)) :
    ∀ p ∈ rowParts cols row, (':' : Char) ∈ p.toList := by
  intro p hp
  rcases List.mem_filterMap.mp hp with ⟨q, _, hfq⟩
  split at hfq
  · obtain rfl := Option.some.inj hfq
    have hsplit : (q.1 ++ ": " ++ cellStr q.2).toList =
        q.1.toList ++ ((": " : String).toList ++ (cellStr q.2).toList) := by
      show (q.1 ++ ": " ++ cellStr q.2).data =
        q.1.data ++ ((": " : String).data ++ (cellStr q.2).data)
      simp [String.data_append]
    rw [hsplit]
    refine List.mem_append.mpr (Or.inr (List.mem_append.mpr (Or.inl ?_)))
    decide
  · exact absurd hfq (by simp)

/-- A row serializes to a nonempty part list iff some cell is kept. -/
theorem rowParts_ne_nil_iff (cols : List String) (row : List (Option String)) :
    rowParts cols row ≠ [] ↔
      ((cols.zip row).any fun p => keepCell p.2) = true := by
  constructor
  · intro h
    by_contra hany
    apply h
    refine List.filterMap_eq_nil_iff.mpr ?_
    intro a ha
    have hk : ¬ keepCell a.2 = true := by
      intro hk
      exact hany (List.any_eq_true.mpr ⟨a, ha, hk⟩)
    simp [hk]
  · intro h hnil
    rcases List.any_eq_true.mp h with ⟨a, ha, hk⟩
    have := List.filterMap_eq_nil_iff.mp hnil a ha
    rw [if_pos hk] at this
    cases this

/-- The Python emission test `row_content.strip()` is truthy exactly when
some cell of the row is kept. -/
theorem stripTruthy_rowContent (cols : List String) (row : List (Option String)) :
    stripTruthy (pyJoin "\n" (rowParts cols row)) =
      ((cols.zip row).any fun p => keepCell p.2) := by
  rcases hne : rowParts cols row with _ | ⟨p, ps⟩
  · cases hany : (cols.zip row).any fun p => keepCell p.2
    · rfl
    · exact absurd hne ((rowParts_ne_nil_iff cols row).mpr hany)
  · have hp : (':' : Char) ∈ p.toList :=
      rowParts_mem_colon cols row p (hne ▸ List.mem_cons_self p ps)
    have hany := (rowParts_ne_nil_iff cols row).mp (by rw [hne]; simp)
    rcases pyJoin_cons "\n" p ps with ⟨t, ht⟩
    have hT : stripTruthy (pyJoin "\n" (p :: ps)) = true := by
      unfold stripTruthy
      rw [ht]
      exact List.any_eq_true.mpr ⟨':', List.mem_append.mpr (Or.inl hp), by decide⟩
    rw [hT, hany]

/-- The row loop emits exactly one document per row with a kept cell. -/
theorem rowDocsFrom_length (cols : List String) (fn ft : String)
    (sh : Option String) :
    ∀ (idx : Nat) (rows : List (List (Option String))),
      (rowDocsFrom cols fn ft sh idx rows).length =
        (rows.filter fun r => (cols.zip r).any fun p => keepCell p.2).length := by
  intro idx rows
  induction rows generalizing idx with
  | nil => rfl
  | cons r rs ih =>
    simp only [rowDocsFrom, List.filter_cons, stripTruthy_rowContent]
    by_cases h : ((cols.zip r).any fun p => keepCell p.2) = true
    · simp [h, ih (idx + 1)]
    · simp [h, ih (idx + 1)]

/-- An all-dropped block of rows emits no documents at all. -/
theorem rowDocsFrom_nil_of_all_dropped (cols : List String) (fn ft : String)
    (sh : Option String) :
    ∀ (idx : Nat) (rows : List (List (Option String))),
      (∀ r ∈ rows, ∀ c ∈ r, keepCell c = false) →
      rowDocsFrom cols fn ft sh idx rows = [] := by
  intro idx rows
  induction rows generalizing idx with
  | nil => intro _; rfl
  | cons r rs ih =>
    intro h
    have hparts : rowParts cols r = [] := by
      refine List.filterMap_eq_nil_iff.mpr ?_
      intro a ha
      have hc : keepCell a.2 = false :=
        h r (List.mem_cons_self r rs) a.2 (List.of_mem_zip ha).2
      simp [hc]
    simp only [rowDocsFrom, hparts]
    have : stripTruthy (pyJoin "\n" ([] : List String)) = false := rfl
    rw [this]
    simpa using ih (idx + 1) fun r' hr' => h r' (List.mem_cons_of_mem r hr')

/-- C10: a cell is dropped from the `column: value` serialization not only
when it is a true null but whenever its stripped, lowercased string form is
"nan", "none" or "null"; dropping a cell removes exactly its line; and a
row whose every cell is dropped (all nulls and/or sentinel strings) emits
no document, leaving only the schema document — exactly like an all-null
row. -/
theorem row_cell_sentinel_skip_spec (df : DataFrame) (fn ft : String)
    (sh : Option String)
    (h : ∀ r ∈ df.rows, ∀ c ∈ r, keepCell c = false) :
    processDataframe df fn ft sh = [schemaDoc df fn ft sh] ∧
    (∀ s : String,
      strLower (pyStrip s) ∈ (["nan", "none", "null"] : List String) →
      keepCell (some s) = false) ∧
    keepCell none = false ∧
    (∀ (col s : String) (cols : List String) (row : List (Option String)),
      keepCell (some s) = false →
      rowParts (col :: cols) (some s :: row) = rowParts cols row) ∧
    keepCell (some "NaN") = false ∧ keepCell (some " null ") = false ∧
    keepCell (some "None") = false ∧ keepCell (some "Alice") = true := by
  refine ⟨?_, ?_, rfl, ?_, by decide, by decide, by decide, by decide⟩
  · unfold processDataframe
    rw [rowDocsFrom_nil_of_all_dropped df.cols fn ft sh 0 df.rows h]
  · intro s hs
    have hc : (["nan", "none", "null"] : List String).contains
        (strLower (pyStrip s)) = true := List.elem_iff.mpr hs
    simp only [keepCell, hc, Bool.not_true]
  · intro col s cols row hk
    simp [rowParts, List.filterMap_cons, hk]

/-- C10 witness: a frame whose rows hold only nulls and the literal
strings "NaN", " null ", "None" yields only the schema document. -/
theorem row_cell_sentinel_skip_spec_witness :
    processDataframe exDfAllSentinels "t.csv" "csv" none =
      [schemaDoc exDfAllSentinels "t.csv" "csv" none] :=
  (row_cell_sentinel_skip_spec exDfAllSentinels "t.csv" "csv" none (by decide)).1

/-- C1: the claim's shape holds on the reachable CSV path — one schema
document first, plus exactly one document per row with a kept cell — but
for every XLSX/XLS input `load` yields zero documents: it calls the
nonexistent method `load_excel` (its intended body is unreachable code
inside `load_csv`), and the `AttributeError` is swallowed by `load`'s
`except`, which returns `[]`.  The unreachable per-sheet body would have
produced 3 documents for the concrete one-sheet workbook `exSheets`. -/
theorem tabular_load_count_and_xlsx_bug (df : DataFrame) (fileName : String)
    (sheets : List (String × DataFrame)) :
    (loadTabular fileName (ParsedFile.csv df)).length =
      1 + (df.rows.filter fun r =>
        (df.cols.zip r).any fun p => keepCell p.2).length ∧
    (loadTabular fileName (ParsedFile.csv df)).head? =
      some (schemaDoc df fileName "csv" none) ∧
    loadTabular fileName (ParsedFile.excel sheets) = [] ∧
    loadTabular "emp.xlsx" (ParsedFile.excel exSheets) = [] ∧
    (deadExcelBody "emp.xlsx" exSheets).length = 3 := by
  refine ⟨?_, rfl, rfl, rfl, by decide⟩
  show (processDataframe df fileName "csv" none).length = _
  unfold processDataframe
  rw [List.length_cons, rowDocsFrom_length df.cols fileName "csv" none 0 df.rows]
  omega

/-- C4 witness: the amended two-phase properties instantiated at the
concrete five-document index with `k = 3` and no filter support. -/
theorem retrieval_two_phase_spec_witness :
    (getRelevantDocuments exRanked false 3).length ≤ 3 + 1 ∧
    ((getRelevantDocuments exRanked false 3).map fun d => d.page_content).Nodup :=
  ⟨(retrieval_two_phase_spec exRanked false 3).1,
    (retrieval_two_phase_spec exRanked false 3).2.2.2.2⟩

/-- C9 witness: binding stop-token configuration on a two-provider router
rebinds the second (fallback) provider with the same kwargs. -/
theorem router_bind_uniform_spec_witness :
    (routerBind { llms := [⟨0, []⟩, ⟨1, []⟩] }
        [("stop", "\nObservation")]).llms[1]? =
      some (bindOne [("stop", "\nObservation")] ⟨1, []⟩) :=
  ((router_bind_uniform_spec { llms := [⟨0, []⟩, ⟨1, []⟩] }
    [("stop", "\nObservation")]).2.1 1).trans rfl

end HRAgent
